import Mathlib

/-!
Shallow embedding of the rss-sp feed service (src/app.py) and verification of
its specification claims.

Modelling conventions:
* Python dict items arriving from the JSON API / HTML scraper are modelled by
  the structure `Item`; a field read with `.get` is an `Option`.
* ISO-8601 date strings are abstracted to the instant they parse to: the
  `datePublished` field is `Option Int` (seconds), where `none` stands for a
  missing, empty or unparsable date string — exactly the cases in which
  `safe_date` falls back to "now".  "now" is threaded as an explicit `Int`
  parameter instead of being read from a clock.
* `hashlib.sha256(...).hexdigest()` is an external library function; it is
  passed in as an explicit parameter `hash : String → String`.
* `urllib`'s `urlparse(url).netloc` test and `urljoin(BASE_URL, url)` are
  external library functions, passed as parameters `hasNetloc : String → Bool`
  and `joinBase : String → String`.
* Python truthiness of strings / bytes ("" is falsy) and of `Option` values
  (`None` is falsy) is spelled out at each use site.
-/

namespace RssSp

/-- Configuration constant MIN_ITEMS = 10 from app.py line 33. -/
def MIN_ITEMS : Nat := 10

/-- Configuration constant CACHE_TTL = 600 seconds from app.py line 42. -/
def CACHE_TTL : Int := 600

/-- The news listing page URL (app.py lines 14-15). -/
def NEWS_PAGE : String := "https://prefeitura.sp.gov.br/noticias"

/-- The default placeholder image URL (app.py line 26). -/
def DEFAULT_IMAGE : String := "https://www.noticiasdeitaquera.com.br/imagens/logoprefsp.png"

/-- The single generic JSON source URL (app.py lines 21-23). -/
def srcUrl : String :=
  "https://prefeitura.sp.gov.br/o/headless-delivery/v1.0/sites/34276/structured-contents?pageSize=100&sort=datePublished:desc"

/-- The list of generic JSON source URLs (app.py lines 21-23); a singleton. -/
def GENERIC_SOURCES : List String := [srcUrl]

/-- The possible shapes of the `title` value of a raw item dict: a plain
string, a locale-keyed mapping (only its pt_BR entry is ever consulted, an
`Option String`), some non-string non-mapping value, or absent. -/
inductive TitleVal where
  | str (s : String)
  | dict (ptBR : Option String)
  | other
  | missing
deriving DecidableEq

/-- The `contentFieldValue` sub-dict of a content field: `data` models
`.get("data", "")` (`none` = key absent), `imageContentUrl` models
`.get("image", {}).get("contentUrl")`. -/
structure ContentFieldValue where
  data : Option String
  imageContentUrl : Option String
deriving DecidableEq

/-- One element of an item's `contentFields` list: either not a dict at all
(skipped by build_feed) or a dict with an optional `name` and an optional
`contentFieldValue`. -/
inductive ContentField where
  | notDict
  | field (name : Option String) (value : Option ContentFieldValue)
deriving DecidableEq

/-- A raw news item as handled by app.py: an open dict of which the code reads
`title`, `contentUrl`, `datePublished` and `contentFields`.  The spec also
mentions a `linkVisited` key, which upstream records may carry; it is included
here so that claims about it can be stated (the code never reads it). -/
structure Item where
  title : TitleVal
  contentUrl : Option String
  linkVisited : Option String
  datePublished : Option Int
  contentFields : List ContentField
deriving DecidableEq

/-- safe_title (app.py lines 48-55): a dict title yields its pt_BR entry with
an `or "Sem título"` fallback (so `None` or the falsy "" give the
placeholder); a plain string title is returned as is; anything else gives the
placeholder. -/
def safe_title (it : Item) : String :=
  match it.title with
  | .dict ptBR =>
      match ptBR with
      | some s => if s = "" then "Sem título" else s
      | none => "Sem título"
  | .str s => s
  | .other => "Sem título"
  | .missing => "Sem título"

/-- safe_date (app.py lines 58-67): a present, parsable date yields its
instant; a missing, empty or unparsable one yields "now". -/
def safe_date (now : Int) (pubDate : Option Int) : Int :=
  pubDate.getD now

/-- normalize_url (app.py lines 70-78), with the urllib collaborators passed
in: `hasNetloc u` models `bool(urlparse(u).netloc)` and `joinBase u` models
`urljoin(BASE_URL, u)`. -/
def normalize_url (hasNetloc : String → Bool) (joinBase : String → String)
    (url : Option String) : Option String :=
  match url with
  | none => none
  | some u =>
      if u = "" then none
      else if hasNetloc u then some u
      else some (joinBase u)

/-- normalize_image_url (app.py lines 81-85): `normalized or DEFAULT_IMAGE`
under Python truthiness. -/
def normalize_image_url (hasNetloc : String → Bool) (joinBase : String → String)
    (url : Option String) : String :=
  match normalize_url hasNetloc joinBase url with
  | some s => if s = "" then DEFAULT_IMAGE else s
  | none => DEFAULT_IMAGE

/-- Dedup key computation (app.py lines 243-246):
`link = it.get("contentUrl") or ""`, and when that is falsy,
`link = "no-link-" + sha256(safe_title(it)).hexdigest()`. -/
def dedupKey (hash : String → String) (it : Item) : String :=
  let link := it.contentUrl.getD ""
  if link = "" then "no-link-" ++ hash (safe_title it) else link

/-- Dict lookup on the insertion-ordered association list: the value of the
first entry carrying key `k`, modelling `dedup[link]` and `link in dedup`. -/
def lookupKey (k : String) : List (String × Item) → Option Item
  | [] => none
  | (k₀, v₀) :: rest => if k₀ = k then some v₀ else lookupKey k rest

/-- Replace the value stored at the first entry with key `k` (Python dict
assignment to an existing key keeps its insertion position). -/
def setKey (k : String) (v : Item) : List (String × Item) → List (String × Item)
  | [] => []
  | (k₀, v₀) :: rest =>
      if k₀ = k then (k₀, v) :: rest else (k₀, v₀) :: setKey k v rest

/-- One step of the dedup loop (app.py lines 247-249): insert the item when
its key is new, overwrite when its fallback date is strictly later than the
stored entry's. -/
def updateDedup (now : Int) (acc : List (String × Item)) (k : String)
    (it : Item) : List (String × Item) :=
  match lookupKey k acc with
  | none => acc ++ [(k, it)]
  | some old =>
      if safe_date now it.datePublished > safe_date now old.datePublished then
        setKey k it acc
      else acc

/-- The dedup dict built by app.py lines 241-249, modelled as an
insertion-ordered association list. -/
def mergeDedup (hash : String → String) (now : Int) (items : List Item) :
    List (String × Item) :=
  items.foldl (fun acc it => updateDedup now acc (dedupKey hash it) it) []

/-- Stable insertion step for the descending-by-date sort: an element moves
ahead of the inserted item only when its date is strictly later, so items
with equal dates keep their input order (Python list.sort is stable). -/
def insertByDate (now : Int) (it : Item) : List Item → List Item
  | [] => [it]
  | b :: rest =>
      if safe_date now b.datePublished ≤ safe_date now it.datePublished then
        it :: b :: rest
      else b :: insertByDate now it rest

/-- items.sort(key=safe_date, reverse=True) (app.py line 254): a stable sort
by fallback date, descending. -/
def sortByDateDesc (now : Int) : List Item → List Item
  | [] => []
  | it :: rest => insertByDate now it (sortByDateDesc now rest)

/-- The 180-day cutoff instant (app.py line 257): now - 180 days, in
seconds. -/
def cutoff180 (now : Int) : Int := now - 180 * 86400

/-- The merged values sorted by date descending (app.py lines 251-254). -/
def fetch_sorted (hash : String → String) (now : Int) (combined : List Item) :
    List Item :=
  sortByDateDesc now ((mergeDedup hash now combined).map Prod.snd)

/-- The recency-filtered list (app.py line 258): keep items whose fallback
date is at or after the cutoff. -/
def fetch_filtered (hash : String → String) (now : Int) (combined : List Item) :
    List Item :=
  (fetch_sorted hash now combined).filter
    (fun i => decide (cutoff180 now ≤ safe_date now i.datePublished))

/-- fetch_all_sources, from the point where the per-source lists have been
concatenated into `combined` (app.py lines 241-267): dedup, sort, 180-day
filter, fall back to the re-sorted full dict values when fewer than MIN_ITEMS
remain (lines 261-264 recompute `list(dedup.values())` and re-sort it, which
yields the same list as line 254), cap at 100. -/
def fetch_all_sources (hash : String → String) (now : Int)
    (combined : List Item) : List Item :=
  let filtered := fetch_filtered hash now combined
  let items :=
    if filtered.length < MIN_ITEMS then fetch_sorted hash now combined
    else filtered
  items.take 100

/-- Substring containment, modelling Python's `needle in hay`. -/
def occursIn (needle hay : String) : Bool :=
  (List.range (hay.length + 1)).any (fun i => needle.isPrefixOf (hay.drop i))

/-- The keyword filter of build_feed (app.py lines 307-315), parameterised by
the configurable INCLUDE_KEYWORDS / EXCLUDE_KEYWORDS lists: include_ok is True
when the include list is empty, else any-match; exclude_ok is True when the
exclude list is empty, else no-match; matching is case-insensitive substring
containment against `title + " " + content`. -/
def passes_filters (includeKs excludeKs : List String) (title content : String) :
    Bool :=
  let full_text := title ++ " " ++ content
  let include_ok :=
    if includeKs.isEmpty then true
    else includeKs.any (fun k => occursIn k.toLower full_text.toLower)
  let exclude_ok :=
    if excludeKs.isEmpty then true
    else !(excludeKs.any (fun k => occursIn k.toLower full_text.toLower))
  include_ok && exclude_ok

/-- The lowered name of a content field, `field.get("name", "").lower()`
(app.py line 297). -/
def fieldNameLower (name : Option String) : String := (name.getD "").toLower

/-- Body-text extraction from contentFields (app.py lines 292-299): for each
dict field whose lowered name is texto/conteudo/body and which has a
contentFieldValue, `content = value.get("data", "") or content`. -/
def extract_content (fields : List ContentField) : String :=
  fields.foldl
    (fun content f =>
      match f with
      | .notDict => content
      | .field name value =>
          match value with
          | none => content
          | some v =>
              if ["texto", "conteudo", "body"].contains (fieldNameLower name) then
                let d := v.data.getD ""
                if d = "" then content else d
              else content)
    ""

/-- Image extraction from contentFields (app.py lines 292-305): for each dict
field whose lowered name is imagem/image and which has a contentFieldValue,
`img_url = normalize_image_url(value.get("image", {}).get("contentUrl"))`;
afterwards a falsy img_url is replaced by DEFAULT_IMAGE. -/
def extract_image (hasNetloc : String → Bool) (joinBase : String → String)
    (fields : List ContentField) : String :=
  let img :=
    fields.foldl
      (fun (img : Option String) f =>
        match f with
        | .notDict => img
        | .field name value =>
            match value with
            | none => img
            | some v =>
                if ["imagem", "image"].contains (fieldNameLower name) then
                  some (normalize_image_url hasNetloc joinBase v.imageContentUrl)
                else img)
      none
  match img with
  | none => DEFAULT_IMAGE
  | some s => if s = "" then DEFAULT_IMAGE else s

/-- A rendered feed entry (title, link, description, enclosure image, guid =
sha256 of the link, publication date) as added by app.py lines 318-324. -/
structure Entry where
  title : String
  link : String
  description : String
  imageUrl : String
  guid : String
  date : Int
deriving DecidableEq

/-- The sentinel "no news" entry added when no real entry survived
(app.py lines 332-338). -/
def sentinelEntry (hash : String → String) (now : Int) : Entry :=
  { title := "Sem notícias no momento"
    link := NEWS_PAGE
    description := "Nenhum item foi encontrado com os filtros atuais."
    imageUrl := DEFAULT_IMAGE
    guid := hash NEWS_PAGE
    date := now }

/-- The entry built from one item (app.py lines 284-324), given its computed
title, link, content and image. -/
def entryOfItem (hash : String → String) (now : Int) (title link content img : String)
    (it : Item) : Entry :=
  { title := title
    link := link
    description := if content = "" then title else content
    imageUrl := img
    guid := hash link
    date := safe_date now it.datePublished }

/-- The per-item step of build_feed's entry loop (app.py lines 283-325):
compute title and link (`item.get("contentUrl") or NEWS_PAGE`), skip falsy
title or link, extract content and image, and append an entry when the
keyword filters pass. -/
def buildEntryStep (hash : String → String) (hasNetloc : String → Bool)
    (joinBase : String → String) (includeKs excludeKs : List String) (now : Int)
    (entries : List Entry) (it : Item) : List Entry :=
  let title := safe_title it
  let link :=
    match it.contentUrl with
    | some u => if u = "" then NEWS_PAGE else u
    | none => NEWS_PAGE
  if title = "" ∨ link = "" then entries
  else
    let content := extract_content it.contentFields
    let img := extract_image hasNetloc joinBase it.contentFields
    if passes_filters includeKs excludeKs title content then
      entries ++ [entryOfItem hash now title link content img it]
    else entries

/-- build_feed (app.py lines 272-341), returning the list of rendered entries
(the RSS/XML serialisation by feedgen is an external collaborator): fold the
entry loop over fetch_all_sources, then substitute the sentinel entry when
zero entries were added. -/
def feedEntries (hash : String → String) (hasNetloc : String → Bool)
    (joinBase : String → String) (includeKs excludeKs : List String) (now : Int)
    (combined : List Item) : List Entry :=
  (fetch_all_sources hash now combined).foldl
    (buildEntryStep hash hasNetloc joinBase includeKs excludeKs now) []

/-- build_feed continued (app.py lines 331-338): `entries_added == 0` is the
emptiness of the accumulated entry list, in which case the sentinel entry is
substituted. -/
def build_feed (hash : String → String) (hasNetloc : String → Bool)
    (joinBase : String → String) (includeKs excludeKs : List String) (now : Int)
    (combined : List Item) : List Entry :=
  let entries := feedEntries hash hasNetloc joinBase includeKs excludeKs now combined
  if entries.length = 0 then [sentinelEntry hash now] else entries

/-- Outcome of one HTTP GET of a JSON source: the request raised a network
error, or returned a status code together with the result of
`resp.json().get("items", [])` (an `Except` error models `resp.json()`
raising on a malformed body). -/
inductive FetchOutcome where
  | netError
  | response (status : Nat) (json : Except Unit (List Item))

/-- fetch_json_items_from_structure (app.py lines 147-160), with the network
modelled as the outcome each successive GET attempt would produce; the result
is paired with the number of GET requests actually issued.  The body performs
a single `SESSION.get` inside one try/except: a raised error or a non-200
status or malformed JSON all degrade to `[]`. -/
def fetch_json_items_from_structure (attempts : Nat → FetchOutcome) :
    List Item × Nat :=
  match attempts 0 with
  | .netError => ([], 1)
  | .response status json =>
      if status = 200 then
        match json with
        | .ok items => (items, 1)
        | .error _ => ([], 1)
      else ([], 1)

/-- fetch_json_items_from_generic_sources (app.py lines 163-174): one GET per
URL of GENERIC_SOURCES inside a try/except-continue loop, extending the item
list on status 200; the result is paired with the number of GET requests
issued. -/
def fetch_json_items_from_generic_sources (outcome : String → FetchOutcome) :
    List Item × Nat :=
  GENERIC_SOURCES.foldl
    (fun acc url =>
      match outcome url with
      | .netError => (acc.1, acc.2 + 1)
      | .response status json =>
          if status = 200 then
            match json with
            | .ok items => (acc.1 ++ items, acc.2 + 1)
            | .error _ => (acc.1, acc.2 + 1)
          else (acc.1, acc.2 + 1))
    ([], 0)

/-- The process-wide cache (app.py line 41): an optional rendered document and
a timestamp. -/
structure CacheState where
  feed : Option String
  ts : Int
deriving DecidableEq

/-- An HTTP response of the /feed.xml endpoint: an RSS document
(mimetype application/rss+xml) or a plain-text error. -/
inductive FeedResponse where
  | rss (body : String)
  | errText (msg : String)
deriving DecidableEq

/-- Python truthiness of the optional cached document: `None` and the empty
string are falsy. -/
def cacheTruthy : Option String → Bool
  | none => false
  | some s => !(s == "")

/-- The /feed.xml endpoint (app.py lines 346-376) as a state transition: given
the cache state, the current time, the outcome `regen` that running
build_feed + serialisation would produce at this moment, and the disk-cache
content, produce the response and the new cache state.  (The disk write on
successful regeneration has no bearing on the in-memory state and is not
modelled.) -/
def feedEndpoint (st : CacheState) (now : Int) (regen : Except Unit String)
    (disk : Option String) : FeedResponse × CacheState :=
  if cacheTruthy st.feed && decide (now - st.ts < CACHE_TTL) then
    (.rss (st.feed.getD ""), st)
  else
    match regen with
    | .ok rss => (.rss rss, ⟨some rss, now⟩)
    | .error _ =>
        if cacheTruthy st.feed then (.rss (st.feed.getD ""), st)
        else if cacheTruthy disk then (.rss (disk.getD ""), ⟨disk, now⟩)
        else (.errText "Erro ao gerar feed", st)

/-- One step of the per-key candidate fold mirroring the dedup loop's
comparison: the stored candidate is replaced only when the new candidate's
fallback date is strictly later. -/
def pick (now : Int) (o : Option Item) (it : Item) : Option Item :=
  match o with
  | none => some it
  | some old =>
      if safe_date now it.datePublished > safe_date now old.datePublished then
        some it
      else some old

/-- The candidate the dedup loop retains for one key: the first element of
the candidate list attaining the maximum fallback date. -/
def firstMaxByDate (now : Int) (l : List Item) : Option Item :=
  l.foldl (pick now) none

/-- Dedup key as the specification words it, for comparison with `dedupKey`:
contentUrl if present, else linkVisited, else a hash of the title. -/
def specDedupKey (hash : String → String) (it : Item) : String :=
  match it.contentUrl with
  | some u => u
  | none =>
      match it.linkVisited with
      | some v => v
      | none => "no-link-" ++ hash (safe_title it)

/-- Identity function on strings, used as a concrete stand-in for the hash
parameter in concrete evaluations. -/
def idHash : String → String := fun s => s

/-- Concrete item: key "u", date 5, title "A". -/
def tieA : Item :=
  { title := .str "A", contentUrl := some "u", linkVisited := none
    datePublished := some 5, contentFields := [] }

/-- Concrete item: key "u", date 5, title "B". -/
def tieB : Item :=
  { title := .str "B", contentUrl := some "u", linkVisited := none
    datePublished := some 5, contentFields := [] }

/-- Concrete linkless item with a linkVisited value and title "A". -/
def lvA : Item :=
  { title := .str "A", contentUrl := none, linkVisited := some "L"
    datePublished := some 1, contentFields := [] }

/-- Concrete linkless item with the same linkVisited value and title "B". -/
def lvB : Item :=
  { title := .str "B", contentUrl := none, linkVisited := some "L"
    datePublished := some 2, contentFields := [] }

/-- Concrete item whose title is the blank plain string. -/
def blankTitleItem : Item :=
  { title := .str "", contentUrl := some "u", linkVisited := none
    datePublished := some 1, contentFields := [] }

/-- Concrete item: key "u", date 3, title "older". -/
def maxA : Item :=
  { title := .str "older", contentUrl := some "u", linkVisited := none
    datePublished := some 3, contentFields := [] }

/-- Concrete item: key "u", date 7, title "newer". -/
def maxB : Item :=
  { title := .str "newer", contentUrl := some "u", linkVisited := none
    datePublished := some 7, contentFields := [] }

/-- Concrete item with the plain non-blank title "Obras". -/
def obrasItem : Item :=
  { title := .str "Obras", contentUrl := none, linkVisited := none
    datePublished := none, contentFields := [] }

/-- Concrete item used by the fetcher scenarios. -/
def probeItem : Item :=
  { title := .str "t", contentUrl := some "u", linkVisited := none
    datePublished := some 1, contentFields := [] }

/-- Network behaviour whose first GET attempt fails while a second attempt
would succeed with one item. -/
def retryProbe : Nat → FetchOutcome :=
  fun n => if n = 0 then .netError else .response 200 (.ok [probeItem])

lemma lookupKey_append_none {l₁ : List (String × Item)} {k : String}
    (h : lookupKey k l₁ = none) (l₂ : List (String × Item)) :
    lookupKey k (l₁ ++ l₂) = lookupKey k l₂ := by
  induction l₁ with
  | nil => simp
  | cons p rest ih =>
      obtain ⟨k₀, v₀⟩ := p
      by_cases hk : k₀ = k
      · simp [lookupKey, hk] at h
      · simp only [List.cons_append, lookupKey, if_neg hk] at h ⊢
        exact ih h

lemma lookupKey_append_some {l₁ : List (String × Item)} {k : String} {v : Item}
    (h : lookupKey k l₁ = some v) (l₂ : List (String × Item)) :
    lookupKey k (l₁ ++ l₂) = some v := by
  induction l₁ with
  | nil => simp [lookupKey] at h
  | cons p rest ih =>
      obtain ⟨k₀, v₀⟩ := p
      by_cases hk : k₀ = k
      · simp only [lookupKey, if_pos hk] at h ⊢
        simpa [List.cons_append, lookupKey, if_pos hk] using h
      · simp only [List.cons_append, lookupKey, if_neg hk] at h ⊢
        exact ih h

lemma lookupKey_setKey_self {l : List (String × Item)} {k : String} {old : Item}
    (h : lookupKey k l = some old) (v : Item) :
    lookupKey k (setKey k v l) = some v := by
  induction l with
  | nil => simp [lookupKey] at h
  | cons p rest ih =>
      obtain ⟨k₀, v₀⟩ := p
      by_cases hk : k₀ = k
      · simp [setKey, lookupKey, hk]
      · simp only [lookupKey, if_neg hk] at h
        simp only [setKey, if_neg hk, lookupKey]
        exact ih h

lemma lookupKey_setKey_ne {k k' : String} (h : k' ≠ k) (v : Item) :
    ∀ (l : List (String × Item)), lookupKey k (setKey k' v l) = lookupKey k l := by
  intro l
  induction l with
  | nil => simp [setKey]
  | cons p rest ih =>
      obtain ⟨k₀, v₀⟩ := p
      by_cases hk : k₀ = k'
      · subst hk
        simp [setKey, lookupKey, h]
      · simp only [setKey, if_neg hk, lookupKey]
        by_cases hk2 : k₀ = k
        · simp [if_pos hk2]
        · simp only [if_neg hk2]
          exact ih

lemma keys_setKey (k : String) (v : Item) :
    ∀ (l : List (String × Item)), (setKey k v l).map Prod.fst = l.map Prod.fst := by
  intro l
  induction l with
  | nil => rfl
  | cons p rest ih =>
      obtain ⟨k₀, v₀⟩ := p
      by_cases hk : k₀ = k
      · simp [setKey, hk]
      · simp [setKey, hk, ih]

lemma lookupKey_eq_none_iff {k : String} :
    ∀ {l : List (String × Item)}, lookupKey k l = none ↔ k ∉ l.map Prod.fst := by
  intro l
  induction l with
  | nil => simp [lookupKey]
  | cons p rest ih =>
      obtain ⟨k₀, v₀⟩ := p
      by_cases hk : k₀ = k
      · subst hk
        simp [lookupKey]
      · simp [lookupKey, hk, ih, Ne.symm hk]

lemma lookupKey_updateDedup (now : Int) (acc : List (String × Item))
    (k' : String) (it : Item) (k : String) :
    lookupKey k (updateDedup now acc k' it) =
      if k' = k then pick now (lookupKey k acc) it else lookupKey k acc := by
  cases h : lookupKey k' acc with
  | none =>
      have hu : updateDedup now acc k' it = acc ++ [(k', it)] := by
        unfold updateDedup
        rw [h]
      rw [hu]
      by_cases hk : k' = k
      · subst hk
        rw [lookupKey_append_none h, if_pos rfl, h]
        simp [lookupKey, pick]
      · rw [if_neg hk]
        cases h₂ : lookupKey k acc with
        | some v => rw [lookupKey_append_some h₂]
        | none =>
            rw [lookupKey_append_none h₂]
            simp [lookupKey, hk]
  | some old =>
      have hu : updateDedup now acc k' it =
          if safe_date now it.datePublished > safe_date now old.datePublished then
            setKey k' it acc
          else acc := by
        unfold updateDedup
        rw [h]
      rw [hu]
      by_cases hd :
          safe_date now it.datePublished > safe_date now old.datePublished
      · rw [if_pos hd]
        by_cases hk : k' = k
        · subst hk
          rw [lookupKey_setKey_self h, if_pos rfl, h]
          simp [pick, hd]
        · rw [lookupKey_setKey_ne hk, if_neg hk]
      · rw [if_neg hd]
        by_cases hk : k' = k
        · subst hk
          rw [if_pos rfl, h]
          simp [pick, hd]
        · rw [if_neg hk]

lemma lookupKey_mergeFold (hash : String → String) (now : Int) :
    ∀ (items : List Item) (acc : List (String × Item)) (k : String),
      lookupKey k
          (items.foldl (fun a it => updateDedup now a (dedupKey hash it) it) acc) =
        (items.filter (fun it => decide (dedupKey hash it = k))).foldl (pick now)
          (lookupKey k acc) := by
  intro items
  induction items with
  | nil => intro acc k; simp
  | cons it rest ih =>
      intro acc k
      simp only [List.foldl_cons, List.filter_cons]
      by_cases hk : dedupKey hash it = k
      · rw [ih, lookupKey_updateDedup, if_pos hk]
        simp [hk]
      · rw [ih, lookupKey_updateDedup, if_neg hk]
        simp [hk]

lemma keys_nodup_updateDedup {acc : List (String × Item)}
    (h : (acc.map Prod.fst).Nodup) (now : Int) (k : String) (it : Item) :
    ((updateDedup now acc k it).map Prod.fst).Nodup := by
  cases hl : lookupKey k acc with
  | none =>
      have hu : updateDedup now acc k it = acc ++ [(k, it)] := by
        unfold updateDedup
        rw [hl]
      have hnot : k ∉ acc.map Prod.fst := lookupKey_eq_none_iff.mp hl
      rw [hu]
      simp [List.nodup_append, h, hnot]
  | some old =>
      have hu : updateDedup now acc k it =
          if safe_date now it.datePublished > safe_date now old.datePublished then
            setKey k it acc
          else acc := by
        unfold updateDedup
        rw [hl]
      rw [hu]
      by_cases hd :
          safe_date now it.datePublished > safe_date now old.datePublished
      · rw [if_pos hd, keys_setKey]
        exact h
      · rw [if_neg hd]
        exact h

lemma keys_nodup_mergeFold (hash : String → String) (now : Int) :
    ∀ (items : List Item) (acc : List (String × Item)),
      (acc.map Prod.fst).Nodup →
      ((items.foldl (fun a it => updateDedup now a (dedupKey hash it) it)
          acc).map Prod.fst).Nodup := by
  intro items
  induction items with
  | nil => intro acc h; simpa using h
  | cons it rest ih =>
      intro acc h
      simp only [List.foldl_cons]
      exact ih _ (keys_nodup_updateDedup h now (dedupKey hash it) it)

lemma pick_date_ge (now : Int) (o : Option Item) (it b : Item)
    (h : pick now o it = some b) :
    safe_date now it.datePublished ≤ safe_date now b.datePublished := by
  cases o with
  | none =>
      simp [pick] at h
      subst h
      exact le_refl _
  | some old =>
      by_cases hd :
          safe_date now it.datePublished > safe_date now old.datePublished
      · simp [pick, hd] at h
        subst h
        exact le_refl _
      · simp [pick, hd] at h
        subst h
        exact le_of_not_lt hd

lemma pick_prev_ge (now : Int) (old it b : Item)
    (h : pick now (some old) it = some b) :
    safe_date now old.datePublished ≤ safe_date now b.datePublished := by
  by_cases hd : safe_date now it.datePublished > safe_date now old.datePublished
  · simp [pick, hd] at h
    subst h
    exact le_of_lt hd
  · simp [pick, hd] at h
    subst h
    exact le_refl _

lemma pick_mem (now : Int) (o : Option Item) (it b : Item)
    (h : pick now o it = some b) : b = it ∨ o = some b := by
  cases o with
  | none =>
      simp [pick] at h
      exact Or.inl h.symm
  | some old =>
      by_cases hd :
          safe_date now it.datePublished > safe_date now old.datePublished
      · simp [pick, hd] at h
        exact Or.inl h.symm
      · simp [pick, hd] at h
        exact Or.inr (by rw [h])

lemma foldl_pick_ne_none (now : Int) :
    ∀ (l : List Item) (b : Item), l.foldl (pick now) (some b) ≠ none := by
  intro l
  induction l with
  | nil => intro b h; exact Option.noConfusion h
  | cons it rest ih =>
      intro b
      simp only [List.foldl_cons]
      cases hp : pick now (some b) it with
      | none =>
          exact absurd hp (by
            by_cases hd :
                safe_date now it.datePublished > safe_date now b.datePublished <;>
              simp [pick, hd])
      | some b₂ => exact ih b₂

lemma firstMaxByDate_eq_none_iff (now : Int) (l : List Item) :
    firstMaxByDate now l = none ↔ l = [] := by
  cases l with
  | nil => simp [firstMaxByDate]
  | cons it rest =>
      simp only [firstMaxByDate, List.foldl_cons]
      constructor
      · intro h
        exact absurd h (by simpa [pick] using foldl_pick_ne_none now rest it)
      · intro h
        exact List.noConfusion h

lemma foldl_pick_spec (now : Int) :
    ∀ (l : List Item) (o : Option Item) (m : Item),
      l.foldl (pick now) o = some m →
      (∀ x ∈ l, safe_date now x.datePublished ≤ safe_date now m.datePublished) ∧
      (∀ b, o = some b →
        safe_date now b.datePublished ≤ safe_date now m.datePublished) ∧
      (m ∈ l ∨ o = some m) := by
  intro l
  induction l with
  | nil =>
      intro o m h
      refine ⟨by simp, ?_, Or.inr h⟩
      intro b hb
      rw [hb] at h
      cases h
      exact le_refl _
  | cons it rest ih =>
      intro o m h
      simp only [List.foldl_cons] at h
      obtain ⟨h₁, h₂, h₃⟩ := ih (pick now o it) m h
      cases hp : pick now o it with
      | none =>
          exact absurd hp (by
            cases o with
            | none => simp [pick]
            | some b =>
                by_cases hd :
                    safe_date now it.datePublished >
                      safe_date now b.datePublished <;>
                  simp [pick, hd])
      | some b₂ =>
          have hit : safe_date now it.datePublished ≤
              safe_date now m.datePublished := by
            have := pick_date_ge now o it b₂ hp
            exact le_trans this (h₂ b₂ hp)
          refine ⟨?_, ?_, ?_⟩
          · intro x hx
            rcases List.mem_cons.mp hx with hx | hx
            · rw [hx]; exact hit
            · exact h₁ x hx
          · intro b hb
            have hpb : pick now (some b) it = some b₂ := by
              rw [hb] at hp
              exact hp
            have := pick_prev_ge now b it b₂ hpb
            exact le_trans this (h₂ b₂ hp)
          · rcases h₃ with hm | hm
            · exact Or.inl (List.mem_cons_of_mem _ hm)
            · rcases pick_mem now o it m hm with hb | hb
              · exact Or.inl (by rw [hb]; exact List.mem_cons_self _ _)
              · exact Or.inr hb

lemma string_append_left_cancel {a b c : String} (h : a ++ b = a ++ c) :
    b = c := by
  apply String.ext
  have hd := congrArg String.data h
  rw [String.data_append, String.data_append] at hd
  exact List.append_cancel_left hd

lemma buildEntryStep_length_le (hash : String → String)
    (hasNetloc : String → Bool) (joinBase : String → String)
    (includeKs excludeKs : List String) (now : Int) (es : List Entry)
    (it : Item) :
    (buildEntryStep hash hasNetloc joinBase includeKs excludeKs now es it).length ≤
      es.length + 1 := by
  unfold buildEntryStep
  by_cases hskip :
      safe_title it = "" ∨
        (match it.contentUrl with
          | some u => if u = "" then NEWS_PAGE else u
          | none => NEWS_PAGE) = ""
  · rw [if_pos hskip]
    exact Nat.le_succ _
  · rw [if_neg hskip]
    by_cases hp :
        passes_filters includeKs excludeKs (safe_title it)
          (extract_content it.contentFields) = true
    · rw [if_pos hp]
      simp
    · rw [if_neg hp]
      exact Nat.le_succ _

lemma foldl_buildEntryStep_length_le (hash : String → String)
    (hasNetloc : String → Bool) (joinBase : String → String)
    (includeKs excludeKs : List String) (now : Int) :
    ∀ (l : List Item) (es : List Entry),
      (l.foldl (buildEntryStep hash hasNetloc joinBase includeKs excludeKs now)
          es).length ≤ es.length + l.length := by
  intro l
  induction l with
  | nil => intro es; simp
  | cons it rest ih =>
      intro es
      simp only [List.foldl_cons, List.length_cons]
      calc (rest.foldl (buildEntryStep hash hasNetloc joinBase includeKs
              excludeKs now)
            (buildEntryStep hash hasNetloc joinBase includeKs excludeKs now es
              it)).length
          ≤ (buildEntryStep hash hasNetloc joinBase includeKs excludeKs now es
              it).length + rest.length := ih _
        _ ≤ es.length + 1 + rest.length := by
            exact Nat.add_le_add_right
              (buildEntryStep_length_le hash hasNetloc joinBase includeKs
                excludeKs now es it) _
        _ = es.length + (rest.length + 1) := by omega

lemma fetch_all_sources_length_le (hash : String → String) (now : Int)
    (combined : List Item) :
    (fetch_all_sources hash now combined).length ≤ 100 := by
  unfold fetch_all_sources
  by_cases hlt :
      (fetch_filtered hash now combined).length < MIN_ITEMS <;>
    simp [hlt, List.length_take]

lemma feedEntries_length_le (hash : String → String) (hasNetloc : String → Bool)
    (joinBase : String → String) (includeKs excludeKs : List String) (now : Int)
    (combined : List Item) :
    (feedEntries hash hasNetloc joinBase includeKs excludeKs now
        combined).length ≤ 100 := by
  unfold feedEntries
  calc ((fetch_all_sources hash now combined).foldl
          (buildEntryStep hash hasNetloc joinBase includeKs excludeKs now)
          []).length
      ≤ ([] : List Entry).length + (fetch_all_sources hash now combined).length :=
        foldl_buildEntryStep_length_le hash hasNetloc joinBase includeKs
          excludeKs now _ []
    _ ≤ 100 := by
        simpa using fetch_all_sources_length_le hash now combined

/-- C1 (amended): for every input list, the merger's output mapping has
exactly one entry per distinct dedup key (its key list is duplicate-free, and
a key is present exactly when some input item carries it); the retained entry
is the fold of the same-key candidates that replaces the stored item only on
a strictly later fallback date — hence its datePublished is the maximum among
the same-key candidates, and when two same-key candidates have equal dates
the FIRST-seen candidate wins (a later candidate displaces the stored one
only with a strictly later date). -/
theorem C1_merger_dedup (hash : String → String) (now : Int) (items : List Item)
    (k : String) :
    ((mergeDedup hash now items).map Prod.fst).Nodup ∧
    lookupKey k (mergeDedup hash now items) =
      firstMaxByDate now
        (items.filter (fun it => decide (dedupKey hash it = k))) ∧
    ((lookupKey k (mergeDedup hash now items)).isSome = true ↔
      ∃ it ∈ items, dedupKey hash it = k) ∧
    (∀ it, lookupKey k (mergeDedup hash now items) = some it →
      it ∈ items ∧ dedupKey hash it = k ∧
      ∀ c ∈ items, dedupKey hash c = k →
        safe_date now c.datePublished ≤ safe_date now it.datePublished) := by
  have hmerge : mergeDedup hash now items =
      items.foldl (fun a it => updateDedup now a (dedupKey hash it) it) [] := rfl
  have hlk : lookupKey k (mergeDedup hash now items) =
      firstMaxByDate now
        (items.filter (fun it => decide (dedupKey hash it = k))) := by
    rw [hmerge, lookupKey_mergeFold]
    rfl
  refine ⟨?_, hlk, ?_, ?_⟩
  · rw [hmerge]
    exact keys_nodup_mergeFold hash now items [] (by simp)
  · rw [hlk]
    constructor
    · intro hs
      rcases Option.isSome_iff_exists.mp hs with ⟨m, hm⟩
      simp only [firstMaxByDate] at hm
      obtain ⟨-, -, h₃⟩ := foldl_pick_spec now _ none m hm
      rcases h₃ with hmem | hcon
      · obtain ⟨hin, hkey⟩ := List.mem_filter.mp hmem
        exact ⟨m, hin, by simpa using hkey⟩
      · exact Option.noConfusion hcon
    · rintro ⟨it, hit, hke⟩
      have hmem : it ∈ items.filter (fun it => decide (dedupKey hash it = k)) :=
        List.mem_filter.mpr ⟨hit, by simpa using hke⟩
      cases hc : firstMaxByDate now
          (items.filter (fun it => decide (dedupKey hash it = k))) with
      | none =>
          rw [firstMaxByDate_eq_none_iff] at hc
          rw [hc] at hmem
          simp at hmem
      | some m => simp
  · intro it hit
    rw [hlk] at hit
    simp only [firstMaxByDate] at hit
    obtain ⟨h₁, -, h₃⟩ := foldl_pick_spec now _ none it hit
    rcases h₃ with hmem | hcon
    · obtain ⟨hin, hkey⟩ := List.mem_filter.mp hmem
      refine ⟨hin, by simpa using hkey, ?_⟩
      intro c hc hck
      exact h₁ c (List.mem_filter.mpr ⟨hc, by simpa using hck⟩)
    · exact Option.noConfusion hcon

/-- C1 counterexample: two same-key items with equal datePublished; the claim
predicts the last-seen item (tieB) is retained, but the merger keeps the
first-seen item (tieA), because an incoming item displaces the stored one
only on a strictly later date. -/
theorem C1_counterexample :
    dedupKey idHash tieA = dedupKey idHash tieB ∧
    safe_date 0 tieA.datePublished = safe_date 0 tieB.datePublished ∧
    tieA ≠ tieB ∧
    lookupKey (dedupKey idHash tieB) (mergeDedup idHash 0 [tieA, tieB]) =
      some tieA := by
  decide

/-- C1 witness: instantiating the amended theorem on two same-key items with
dates 3 and 7; the retained item is maxB and its date dominates both
candidates. -/
theorem C1_merger_dedup_witness :
    maxB ∈ [maxA, maxB] ∧ dedupKey idHash maxB = "u" ∧
    ∀ c ∈ [maxA, maxB], dedupKey idHash c = "u" →
      safe_date 0 c.datePublished ≤ safe_date 0 maxB.datePublished :=
  (C1_merger_dedup idHash 0 [maxA, maxB] "u").2.2.2 maxB (by decide)

/-- C2 (amended): the dedup key is the item's contentUrl when that is a
non-empty string, and otherwise "no-link-" followed by the hash of the safe
title; the linkVisited field is never consulted (changing it never changes
the key), and two linkless items whose title hashes differ are never
collapsed into the same bucket. -/
theorem C2_dedup_key (hash : String → String) (it : Item) (v : Option String)
    (it₁ it₂ : Item) :
    dedupKey hash { it with linkVisited := v } = dedupKey hash it ∧
    (it.contentUrl.getD "" ≠ "" → dedupKey hash it = it.contentUrl.getD "") ∧
    (it₁.contentUrl.getD "" = "" → it₂.contentUrl.getD "" = "" →
      hash (safe_title it₁) ≠ hash (safe_title it₂) →
      dedupKey hash it₁ ≠ dedupKey hash it₂) := by
  refine ⟨rfl, ?_, ?_⟩
  · intro h
    simp [dedupKey, h]
  · intro h₁ h₂ hne heq
    rw [dedupKey, dedupKey] at heq
    simp only [h₁, h₂, if_pos rfl] at heq
    exact hne (string_append_left_cancel heq)

/-- C2 counterexample: two linkless items carrying the same linkVisited value
"L"; per the claim both would get dedup key "L" and collapse into one bucket,
but the code ignores linkVisited, gives them distinct title-hash keys, and
keeps two entries. -/
theorem C2_counterexample :
    specDedupKey idHash lvA = specDedupKey idHash lvB ∧
    dedupKey idHash lvA ≠ specDedupKey idHash lvA ∧
    dedupKey idHash lvA ≠ dedupKey idHash lvB ∧
    (mergeDedup idHash 0 [lvA, lvB]).length = 2 := by
  decide

/-- C2 witness: the amended theorem applied to the two concrete linkless
items with distinct titles. -/
theorem C2_dedup_key_witness :
    dedupKey idHash lvA ≠ dedupKey idHash lvB :=
  (C2_dedup_key idHash lvA none lvA lvB).2.2 (by decide) (by decide) (by decide)

/-- C3: applying the 180-day recency cutoff to the merged, sorted item list
retains exactly the items whose fallback-computed datePublished is at or
after now minus 180 days; when the retained count is below the MIN_ITEMS
floor of 10 the filtered result is discarded and the full sorted list is used
instead (then capped at 100), otherwise the filtered list is used (capped at
100). -/
theorem C3_recency_floor (hash : String → String) (now : Int)
    (combined : List Item) :
    (∀ i, i ∈ fetch_filtered hash now combined ↔
      i ∈ fetch_sorted hash now combined ∧
        cutoff180 now ≤ safe_date now i.datePublished) ∧
    ((fetch_filtered hash now combined).length < MIN_ITEMS →
      fetch_all_sources hash now combined =
        (fetch_sorted hash now combined).take 100) ∧
    (MIN_ITEMS ≤ (fetch_filtered hash now combined).length →
      fetch_all_sources hash now combined =
        (fetch_filtered hash now combined).take 100) := by
  refine ⟨?_, ?_, ?_⟩
  · intro i
    simp [fetch_filtered, List.mem_filter]
  · intro h
    simp [fetch_all_sources, h]
  · intro h
    simp [fetch_all_sources, Nat.not_lt.mpr h]

/-- C3 witness: on the empty input the filtered count 0 is below the floor,
so the result is the capped full sorted list. -/
theorem C3_recency_floor_witness :
    fetch_all_sources idHash 0 [] = (fetch_sorted idHash 0 []).take 100 :=
  (C3_recency_floor idHash 0 []).2.1 (by decide)

/-- C4: for every pipeline run the rendered feed has at least one entry and
at most 100 entries: the item list is capped at 100, each item contributes at
most one entry, and when zero entries were added the single sentinel entry is
substituted. -/
theorem C4_feed_count (hash : String → String) (hasNetloc : String → Bool)
    (joinBase : String → String) (includeKs excludeKs : List String)
    (now : Int) (combined : List Item) :
    1 ≤ (build_feed hash hasNetloc joinBase includeKs excludeKs now
        combined).length ∧
    (build_feed hash hasNetloc joinBase includeKs excludeKs now
        combined).length ≤ 100 ∧
    ((feedEntries hash hasNetloc joinBase includeKs excludeKs now
        combined).length = 0 →
      build_feed hash hasNetloc joinBase includeKs excludeKs now combined =
        [sentinelEntry hash now]) := by
  have hle := feedEntries_length_le hash hasNetloc joinBase includeKs excludeKs
    now combined
  unfold build_feed
  by_cases he :
      (feedEntries hash hasNetloc joinBase includeKs excludeKs now
        combined).length = 0
  · simp [he]
  · refine ⟨?_, ?_, ?_⟩
    · simp only [if_neg he]
      omega
    · simp only [if_neg he]
      exact hle
    · intro h
      exact absurd h he

/-- C4 witness: on an empty source pool no entry is added, so the rendered
feed is exactly the single sentinel entry. -/
theorem C4_feed_count_witness :
    build_feed idHash (fun _ => false) idHash [] [] 0 [] =
      [sentinelEntry idHash 0] :=
  (C4_feed_count idHash (fun _ => false) idHash [] [] 0 []).2.2 (by decide)

/-- C5: the keyword filter passes an item exactly when the include list is
empty or some include term occurs case-insensitively in title-space-content,
and the exclude list is empty or no exclude term occurs case-insensitively in
title-space-content. -/
theorem C5_keyword_filter (includeKs excludeKs : List String)
    (title content : String) :
    passes_filters includeKs excludeKs title content = true ↔
      ((includeKs = [] ∨ ∃ k ∈ includeKs,
          occursIn k.toLower (title ++ " " ++ content).toLower = true) ∧
       (excludeKs = [] ∨ ∀ k ∈ excludeKs,
          occursIn k.toLower (title ++ " " ++ content).toLower = false)) := by
  unfold passes_filters
  by_cases hi : includeKs.isEmpty <;> by_cases he : excludeKs.isEmpty <;>
    simp_all [List.isEmpty_iff, List.any_eq_true, Bool.not_eq_true,
      List.eq_nil_iff_forall_not_mem]

lemma cacheTruthy_some_of_ne {d : String} (hd : d ≠ "") :
    cacheTruthy (some d) = true := by
  simp [cacheTruthy, hd]

lemma feedEndpoint_warm_valid {d : String} {st : CacheState} {now : Int}
    (hd : d ≠ "") (hf : st.feed = some d) (hts : now - st.ts < CACHE_TTL)
    (regen : Except Unit String) (disk : Option String) :
    feedEndpoint st now regen disk = (.rss d, st) := by
  simp [feedEndpoint, hf, cacheTruthy_some_of_ne hd, hts]

/-- C6: whenever the in-memory cache holds a (non-empty) document d and
regeneration at the next request fails, the endpoint's response is the RSS
response carrying d, not an error response. -/
theorem C6_stale_cache_on_failure (st : CacheState) (now : Int) (d : String)
    (disk : Option String) (hf : st.feed = some d) (hd : d ≠ "") :
    (feedEndpoint st now (.error ()) disk).1 = .rss d := by
  by_cases hts : now - st.ts < CACHE_TTL
  · rw [feedEndpoint_warm_valid hd hf hts]
  · simp [feedEndpoint, hf, cacheTruthy_some_of_ne hd, hts]

/-- C6 witness: a warm cache holding "doc" at a stale timestamp still serves
"doc" when regeneration fails. -/
theorem C6_stale_cache_on_failure_witness :
    (feedEndpoint ⟨some "doc", 0⟩ 1000 (.error ()) none).1 = .rss "doc" :=
  C6_stale_cache_on_failure ⟨some "doc", 0⟩ 1000 "doc" none rfl (by decide)

/-- C7: a request arriving while the cache holds a (non-empty) document whose
age is strictly below the TTL gets exactly the cached document back and
leaves the cache state unchanged, for every possible regeneration outcome and
disk content — so the pipeline result is never consulted. -/
theorem C7_cache_hit (st : CacheState) (now : Int) (d : String)
    (regen : Except Unit String) (disk : Option String) (hf : st.feed = some d)
    (hd : d ≠ "") (hts : now - st.ts < CACHE_TTL) :
    feedEndpoint st now regen disk = (.rss d, st) :=
  feedEndpoint_warm_valid hd hf hts regen disk

/-- C7 witness: a 10-second-old cache entry is served unchanged even though
regeneration would have failed. -/
theorem C7_cache_hit_witness :
    feedEndpoint ⟨some "doc", 0⟩ 10 (.error ()) none =
      (.rss "doc", ⟨some "doc", 0⟩) :=
  C7_cache_hit ⟨some "doc", 0⟩ 10 "doc" (.error ()) none rfl (by decide)
    (by decide)

/-- C8 (amended): the fetchers never propagate a network failure — a raised
request, a non-200 status and a malformed JSON body all degrade to the empty
item list — but they do not retry: fetch_json_items_from_structure issues
exactly one GET regardless of the outcome, and
fetch_json_items_from_generic_sources issues exactly one GET per configured
source URL. -/
theorem C8_fetch_degrades_no_retry (attempts : Nat → FetchOutcome)
    (outcome : String → FetchOutcome) :
    (fetch_json_items_from_structure attempts).2 = 1 ∧
    (attempts 0 = .netError →
      (fetch_json_items_from_structure attempts).1 = []) ∧
    (∀ s j, attempts 0 = .response s j → s ≠ 200 →
      (fetch_json_items_from_structure attempts).1 = []) ∧
    (∀ s, attempts 0 = .response s (.error ()) →
      (fetch_json_items_from_structure attempts).1 = []) ∧
    (fetch_json_items_from_generic_sources outcome).2 =
      GENERIC_SOURCES.length ∧
    ((∀ url ∈ GENERIC_SOURCES, outcome url = .netError) →
      (fetch_json_items_from_generic_sources outcome).1 = []) := by
  refine ⟨?_, ?_, ?_, ?_, ?_, ?_⟩
  · cases h : attempts 0 with
    | netError => simp [fetch_json_items_from_structure, h]
    | response s j =>
        by_cases hs : s = 200 <;> cases j <;>
          simp [fetch_json_items_from_structure, h, hs]
  · intro h
    simp [fetch_json_items_from_structure, h]
  · intro s j h hs
    cases j <;> simp [fetch_json_items_from_structure, h, hs]
  · intro s h
    by_cases hs : s = 200 <;>
      simp [fetch_json_items_from_structure, h, hs]
  · cases h : outcome srcUrl with
    | netError =>
        simp [fetch_json_items_from_generic_sources, GENERIC_SOURCES, h]
    | response s j =>
        by_cases hs : s = 200 <;> cases j <;>
          simp [fetch_json_items_from_generic_sources, GENERIC_SOURCES, h, hs]
  · intro hall
    have h := hall srcUrl (by simp [GENERIC_SOURCES])
    cases hu : outcome srcUrl with
    | netError =>
        simp [fetch_json_items_from_generic_sources, GENERIC_SOURCES, hu]
    | response s j =>
        rw [hu] at h
        exact FetchOutcome.noConfusion h

/-- C8 counterexample: a network behaviour whose first GET fails while a
second attempt would return an item; the claimed retry would recover the
item, but the fetcher stops after the single failed GET and returns the empty
list. -/
theorem C8_counterexample :
    retryProbe 0 = .netError ∧
    retryProbe 1 = .response 200 (.ok [probeItem]) ∧
    fetch_json_items_from_structure retryProbe = ([], 1) :=
  ⟨rfl, rfl, rfl⟩

/-- C8 witness: the amended theorem applied to the concrete failing
behaviour. -/
theorem C8_fetch_degrades_no_retry_witness :
    (fetch_json_items_from_structure retryProbe).1 = [] :=
  (C8_fetch_degrades_no_retry retryProbe (fun _ => .netError)).2.1 rfl

/-- C9 (amended): safe_title returns the placeholder for a missing title, a
non-string non-mapping title, and a locale mapping whose pt_BR entry is
missing or blank; a plain-string title is returned verbatim — including when
it is blank — and a non-blank locale entry is returned as is. -/
theorem C9_safe_title (it : Item) (s : String) :
    (it.title = .missing → safe_title it = "Sem título") ∧
    (it.title = .other → safe_title it = "Sem título") ∧
    (it.title = .dict none → safe_title it = "Sem título") ∧
    (it.title = .dict (some "") → safe_title it = "Sem título") ∧
    (it.title = .dict (some s) → s ≠ "" → safe_title it = s) ∧
    (it.title = .str s → safe_title it = s) := by
  refine ⟨?_, ?_, ?_, ?_, ?_, ?_⟩
  · intro h
    simp [safe_title, h]
  · intro h
    simp [safe_title, h]
  · intro h
    simp [safe_title, h]
  · intro h
    simp [safe_title, h]
  · intro h hs
    simp [safe_title, h, hs]
  · intro h
    simp [safe_title, h]

/-- C9 counterexample: the blank plain-string title is returned as the empty
string, not replaced by the placeholder as the claim states. -/
theorem C9_counterexample :
    safe_title blankTitleItem = "" ∧ "" ≠ "Sem título" := by
  exact ⟨rfl, by decide⟩

/-- C9 witness: a non-blank plain string title is returned verbatim. -/
theorem C9_safe_title_witness : safe_title obrasItem = "Obras" :=
  (C9_safe_title obrasItem "Obras").2.2.2.2.2 rfl

/-- C10: when the in-memory cache is empty, regeneration fails and a
(non-empty) disk document d exists, the endpoint serves d and installs it in
the in-memory cache stamped with the current time; a subsequent request
within one TTL then serves d from memory, leaving the state unchanged, for
any regeneration outcome and disk content. -/
theorem C10_disk_recovery (st : CacheState) (now now₂ : Int) (d : String)
    (regen₂ : Except Unit String) (disk₂ : Option String)
    (hf : st.feed = none) (hd : d ≠ "") (hts : now₂ - now < CACHE_TTL) :
    feedEndpoint st now (.error ()) (some d) = (.rss d, ⟨some d, now⟩) ∧
    feedEndpoint ⟨some d, now⟩ now₂ regen₂ disk₂ =
      (.rss d, ⟨some d, now⟩) := by
  constructor
  · simp [feedEndpoint, hf, cacheTruthy, hd]
  · exact feedEndpoint_warm_valid hd rfl hts regen₂ disk₂

/-- C10 witness: a cold cache recovering "doc" from disk at t=5 serves it
from memory at t=100 with the state untouched. -/
theorem C10_disk_recovery_witness :
    feedEndpoint ⟨none, 0⟩ 5 (.error ()) (some "doc") =
      (.rss "doc", ⟨some "doc", 5⟩) ∧
    feedEndpoint ⟨some "doc", 5⟩ 100 (.ok "new") none =
      (.rss "doc", ⟨some "doc", 5⟩) :=
  C10_disk_recovery ⟨none, 0⟩ 5 100 "doc" (.ok "new") none rfl (by decide)
    (by decide)

end RssSp
